import Mathlib

/-!
# Verification of the entity mapping layer

A shallow embedding, in Lean, of the metadata-resolution and SQL
statement-generation core of the `entity` Go package (struct-tag driven
CRUD mapper on top of sqlx), together with proofs about the claims of its
specification.

Strings are modelled as lists of characters (`Str`); the Go string
operations used by the source (`strings.Split` on a one-character
separator, `strings.Join`, `strings.ReplaceAll` deleting a one-character
substring, `strings.Contains`, `+` concatenation) are reproduced on that
representation.
-/

namespace EntityGo

/-- Go strings, modelled as lists of characters. -/
abbrev Str := List Char

/-- Coerce a Lean string literal to the `Str` model. -/
def str (s : String) : Str := s.data

/-- `strings.Split(s, sep)` for a one-character separator: the list of
(possibly empty) segments of `s` between occurrences of `c`. -/
def splitOnChar (c : Char) : Str → List Str
  | [] => [[]]
  | a :: s =>
    match splitOnChar c s with
    | [] => [[]]
    | t :: ts => if a = c then [] :: t :: ts else (a :: t) :: ts

/-- `strings.Join(parts, sep)`. -/
def joinStr (sep : Str) : List Str → Str
  | [] => []
  | [x] => x
  | x :: y :: xs => x ++ sep ++ joinStr sep (y :: xs)

/-- `strings.ReplaceAll(s, string(c), "")`: delete every occurrence of the
character `c`. -/
def removeAll (c : Char) (s : Str) : Str := s.filter (· ≠ c)

/-- `strings.Contains(s, sub)`: does `sub` occur as a contiguous
substring of `s`? -/
def containsStr : Str → Str → Bool
  | s, sub =>
    if sub.isPrefixOf s then true
    else
      match s with
      | [] => false
      | _ :: t => containsStr t sub

end EntityGo

namespace EntityGo

/-- Driver name constant `driverMysql`. -/
def driverMysql : Str := str "mysql"

/-- Driver name constant `driverPostgres`. -/
def driverPostgres : Str := str "postgres"

/-- Driver name constant `driverSqlite3`. -/
def driverSqlite3 : Str := str "sqlite3"

/-- `Column`: resolved mapping information of one struct field
(entity.go). -/
structure Column where
  structField : Str
  dbField : Str
  primaryKey : Bool := false
  autoIncrement : Bool := false
  refuseUpdate : Bool := false
  returningInsert : Bool := false
  returningUpdate : Bool := false
  deriving DecidableEq, Repr

/-- One mapped struct field as delivered by the `reflectx` field walk:
its struct-field name, its db name (`fi.Name`) and the set of tag option
keys (`fi.Options`, a Go map iterated in arbitrary order; every branch of
the option switch only sets flags, so order is irrelevant and a list is a
faithful model). -/
structure FieldSpec where
  fieldName : Str
  name : Str
  options : List Str
  deriving DecidableEq, Repr

/-- One `case` step of the option `switch` in `getColumns` (entity.go):
interpret a single tag option key on a column. -/
def applyOption (col : Column) (key : Str) : Column :=
  if key = str "primaryKey" ∨ key = str "primary_key" then
    { col with primaryKey := true, refuseUpdate := true }
  else if key = str "refuseUpdate" ∨ key = str "refuse_update" then
    { col with refuseUpdate := true }
  else if key = str "returning" then
    { col with returningInsert := true, returningUpdate := true, refuseUpdate := true }
  else if key = str "returningInsert" ∨ key = str "returning_insert" then
    { col with returningInsert := true }
  else if key = str "returningUpdate" ∨ key = str "returning_update" then
    { col with returningUpdate := true, refuseUpdate := true }
  else if key = str "autoIncrement" ∨ key = str "auto_increment" then
    { col with autoIncrement := true, refuseUpdate := true }
  else col

/-- Build the `Column` of one mapped field: start from the bare
name-only column and run the option switch over every tag option
(`getColumns` loop body, entity.go). -/
def mkColumn (f : FieldSpec) : Column :=
  f.options.foldl applyOption { structField := f.fieldName, dbField := f.name }

/-- `getColumns` (entity.go): one `Column` per mapped field, in field
order. -/
def getColumns (fields : List FieldSpec) : List Column := fields.map mkColumn

/-- `Metadata` (entity.go): the resolved shape of one mapped type.  The
`Type` cache key is omitted: it only identifies the Go type in the
process-wide caches and takes no part in statement generation. -/
structure Metadata where
  tableName : Str
  columns : List Column
  primaryKeys : List Column
  hasReturningInsert : Bool
  hasReturningUpdate : Bool
  deriving DecidableEq, Repr

/-- `NewMetadata` (entity.go): validate and derive the metadata of a
mapped type from its table name and resolved columns.  Fails when no
column or no primary-key column exists. -/
def NewMetadata (tableName : Str) (columns : List Column) : Except Str Metadata :=
  if columns = [] then
    .error (str "empty entity")
  else if columns.filter (·.primaryKey) = [] then
    .error (str "primary key not found")
  else
    .ok
      { tableName := tableName
        columns := columns
        primaryKeys := columns.filter (·.primaryKey)
        hasReturningInsert := columns.any (·.returningInsert)
        hasReturningUpdate := columns.any (·.returningUpdate) }

end EntityGo

namespace EntityGo

/-! ## Dialect quoting (part of db statement generation source) -/

/-- The characters Go's `%q` verb escapes among those that can occur in
SQL identifiers: the double quote and the backslash.  (`%q` additionally
escapes control and non-printable characters, which never occur in
identifiers; mapped column names are plain printable names.) -/
def goEscapeChar (c : Char) : Str :=
  if c = '"' then ['\\', '"']
  else if c = '\\' then ['\\', '\\']
  else [c]

/-- `quoteColumn(name, driver)`: backtick-wrap under mysql, otherwise
Go `%q` double-quoting. -/
def quoteColumn (name : Str) (driver : Str) : Str :=
  if driver = driverMysql then
    '`' :: name ++ ['`']
  else
    '"' :: name.flatMap goEscapeChar ++ ['"']

/-- The quote character `symbol` chosen by `quoteIdentifier`: backtick
for mysql, double quote otherwise. -/
def quoteSymbol (driver : Str) : Char :=
  if driver = driverMysql then '`' else '"'

/-- One segment of `quoteIdentifier`'s loop body: wrap in the quote
character unless the segment is a literal `*`. -/
def quoteSegment (sym : Char) (s : Str) : Str :=
  if s = ['*'] then s else sym :: s ++ [sym]

/-- `quoteIdentifier(name, driver)`: strip every pre-existing quote
character of the dialect, split the name on `.`, quote each segment that
is not a literal `*`, and rejoin with `.`. -/
def quoteIdentifier (name : Str) (driver : Str) : Str :=
  let sym := quoteSymbol driver
  joinStr ['.'] ((splitOnChar '.' (removeAll sym name)).map (quoteSegment sym))

end EntityGo

namespace EntityGo

/-! ## Statement generation (part of db statement generation source) -/

/-- The three lists accumulated by the `newInsertStatement` loop. -/
structure InsAcc where
  columns : List Str
  returnings : List Str
  placeholder : List Str
  deriving Repr

/-- One iteration of the `newInsertStatement` column loop: a
`ReturningInsert` column goes to the RETURNING list; otherwise, unless it
is `AutoIncrement`, it goes to the column and placeholder lists. -/
def insertStep (driver : Str) (acc : InsAcc) (col : Column) : InsAcc :=
  let c := quoteColumn col.dbField driver
  if col.returningInsert then
    { acc with returnings := acc.returnings ++ [c] }
  else if !col.autoIncrement then
    { acc with
        columns := acc.columns ++ [c]
        placeholder := acc.placeholder ++ [':' :: col.dbField] }
  else acc

/-- `newInsertStatement(md, driver)`. -/
def newInsertStatement (md : Metadata) (driver : Str) : Str :=
  let acc := md.columns.foldl (insertStep driver) ⟨[], [], []⟩
  let stmt :=
    str "INSERT INTO " ++ quoteIdentifier md.tableName driver ++
    str " (" ++ joinStr (str ", ") acc.columns ++
    str ") VALUES (" ++ joinStr (str ", ") acc.placeholder ++ str ")"
  if acc.returnings.length > 0 then
    stmt ++ str " RETURNING " ++ joinStr (str ", ") acc.returnings
  else stmt

/-- The four lists accumulated by the `newUpsertStatement` loop. -/
structure UpsAcc where
  insertColumns : List Str
  insertPlaceholders : List Str
  updateStmt : List Str
  returningColumns : List Str
  deriving Repr

/-- One iteration of the `newUpsertStatement` column loop. -/
def upsertStep (driver : Str) (acc : UpsAcc) (v : Column) : UpsAcc :=
  let column := quoteColumn v.dbField driver
  let placeholder := ':' :: v.dbField
  let acc :=
    if !v.autoIncrement && !v.returningInsert then
      { acc with
          insertColumns := acc.insertColumns ++ [column]
          insertPlaceholders := acc.insertPlaceholders ++ [placeholder] }
    else acc
  let acc :=
    if !v.primaryKey && !v.refuseUpdate && !v.returningUpdate then
      { acc with updateStmt := acc.updateStmt ++ [column ++ str " = " ++ placeholder] }
    else acc
  if v.returningInsert || v.returningUpdate then
    { acc with returningColumns := acc.returningColumns ++ [column] }
  else acc

/-- `newUpsertStatement(md, driver)`: INSERT part, then a
dialect-dependent conflict clause (`ON CONFLICT KEY UPDATE …` for mysql
with no target list, `ON CONFLICT (<primary keys>) DO UPDATE SET …`
otherwise), then an optional RETURNING clause. -/
def newUpsertStatement (md : Metadata) (driver : Str) : Str :=
  let acc := md.columns.foldl (upsertStep driver) ⟨[], [], [], []⟩
  let stmt :=
    str "INSERT INTO " ++ quoteIdentifier md.tableName driver ++
    str " (" ++ joinStr (str ", ") acc.insertColumns ++
    str ") VALUES (" ++ joinStr (str ", ") acc.insertPlaceholders ++ str ")"
  let stmt :=
    if driver = driverMysql then
      stmt ++ str " ON CONFLICT KEY UPDATE " ++ joinStr (str ", ") acc.updateStmt
    else
      let target := md.primaryKeys.map (fun v => quoteColumn v.dbField driver)
      stmt ++ str " ON CONFLICT (" ++ joinStr (str ", ") target ++
        str ") DO UPDATE SET " ++ joinStr (str ", ") acc.updateStmt
  if acc.returningColumns.length > 0 then
    stmt ++ str " RETURNING " ++ joinStr (str ", ") acc.returningColumns
  else stmt

end EntityGo

namespace EntityGo

/-! ## CRUD executor model

The executor functions (`doLoad`, `doInsert`, `doUpdate`, `doUpsert` and
the prepared-statement variants, together with the exported wrappers in
entity.go) interact with two collaborators: the `DB` handle and the
entity's hooks/cache.  The collaborators are modelled by their observable
outcomes — what an exec returns, what a query returns, whether a hook or
a cache call fails — and the functions are translated as deciders over
those outcomes, recording the collaborator calls they make as an effect
trace. -/

/-- Go error values reaching the executor paths. -/
inductive GoErr where
  /-- `sql.ErrNoRows`. -/
  | errNoRows
  /-- A raw driver/collaborator error carrying its message text. -/
  | raw (msg : Str)
  /-- `fmt.Errorf("<context>, %w", err)`. -/
  | wrapped (context : Str) (e : GoErr)
  /-- `ErrConflict`. -/
  | conflict
  deriving DecidableEq, Repr

/-- The message text of an error, as Go's `err.Error()` produces it:
`fmt.Errorf("<context>, %w", err)` prefixes the context and `", "`. -/
def errMessage : GoErr → Str
  | .errNoRows => str "sql: no rows in result set"
  | .raw msg => msg
  | .wrapped context e => context ++ str ", " ++ errMessage e
  | .conflict => str "record conflict"

/-- `isConflictError(err, driver)`: textual uniqueness-violation
detection per driver. -/
def isConflictError (e : GoErr) (driver : Str) : Bool :=
  let s := errMessage e
  if driver = driverPostgres then
    containsStr s (str "duplicate key value violates unique constraint")
  else if driver = driverMysql then
    containsStr s (str "Duplicate entry")
  else if driver = driverSqlite3 then
    containsStr s (str "UNIQUE constraint failed")
  else false

/-- Outcome of a row-returning `NamedQueryContext` followed by the
`rows.Next` / `rows.StructScan` / `rows.Err` sequence the executor
performs on it. -/
inductive QueryOutcome where
  /-- `NamedQueryContext` itself failed. -/
  | fail (e : Str)
  /-- The query succeeded and `rows.Next()` returned false. -/
  | noRows
  /-- A row arrived but `rows.StructScan` failed. -/
  | scanFail (e : Str)
  /-- A row arrived and was scanned; `rows.Err()` is the final result. -/
  | done (rowsErr : Option Str)
  deriving DecidableEq, Repr

/-- The shared row-returning tail of `doInsert`/`doUpdate`/`doUpsert`:
query, require one row (`sql.ErrNoRows` otherwise), scan it back, then
report `rows.Err()`. -/
def runReturningQuery : QueryOutcome → Except GoErr Unit
  | .fail e => .error (.raw e)
  | .noRows => .error .errNoRows
  | .scanFail e => .error (.wrapped (str "scan struct") (.raw e))
  | .done none => .ok ()
  | .done (some e) => .error (.raw e)

/-- Outcome of a `NamedExecContext`: either the call fails, or it yields
a `sql.Result` whose `RowsAffected()` is itself a fallible count. -/
inductive ExecOutcome where
  | fail (e : Str)
  | ok (rowsAffected : Except Str Nat)
  deriving Repr

/-- `doUpdate` (db statement executor source), after metadata and
statement are obtained: with `returningUpdate` columns it runs the
row-returning tail, otherwise it runs `NamedExecContext` and returns its
error — the affected-row count is never inspected. -/
def doUpdate (md : Metadata) (ex : ExecOutcome) (q : QueryOutcome) : Except GoErr Unit :=
  if md.hasReturningUpdate then
    runReturningQuery q
  else
    match ex with
    | .fail e => .error (.raw e)
    | .ok _ => .ok ()

/-- `PrepareUpdateStatement.execContext` (entity.go): with
`returningUpdate` columns it scans the single returned row, otherwise it
executes and then requires `RowsAffected() >= 1`, turning zero into
`sql.ErrNoRows`. -/
def pusExecContext (md : Metadata) (ex : ExecOutcome) (q : QueryOutcome) : Except GoErr Unit :=
  if md.hasReturningUpdate then
    runReturningQuery q
  else
    match ex with
    | .fail e => .error (.raw e)
    | .ok (.error e) => .error (.wrapped (str "get affected rows") (.raw e))
    | .ok (.ok n) => if n = 0 then .error .errNoRows else .ok ()

end EntityGo

namespace EntityGo

/-- Calls a CRUD executor issues against the DB collaborator: generating
(or fetching) the statement text, a plain exec, or a row-returning
query. -/
inductive DbEffect where
  | genStatement (text : Str)
  | exec (text : Str)
  | query (text : Str)
  deriving DecidableEq, Repr

/-- `doUpsert` (db statement executor source), given resolved metadata:
first reject any auto-increment primary key — before the statement is
generated or the DB touched — then generate the UPSERT text; without
returning columns run a plain exec (ignoring the affected-row count),
otherwise run the row-returning tail. -/
def doUpsert (md : Metadata) (driver : Str) (ex : ExecOutcome) (q : QueryOutcome) :
    Except GoErr Unit × List DbEffect :=
  match md.primaryKeys.find? (·.autoIncrement) with
  | some col =>
    (.error (.raw (str "upsert not support auto increment primary key " ++ col.dbField)), [])
  | none =>
    let stmt := newUpsertStatement md driver
    if !md.hasReturningInsert && !md.hasReturningUpdate then
      match ex with
      | .fail e => (.error (.raw e), [.genStatement stmt, .exec stmt])
      | .ok _ => (.ok (), [.genStatement stmt, .exec stmt])
    else
      (runReturningQuery q, [.genStatement stmt, .query stmt])

/-- `Insert` (entity.go): before-insert hook, then the insert itself;
a failing insert is classified by `isConflictError` into `ErrConflict`
or propagated raw; then the after-insert hook. -/
def Insert (beforeHook afterHook : Option Str) (insertRes : Except GoErr Int)
    (driver : Str) : Except GoErr Int :=
  match beforeHook with
  | some e => .error (.wrapped (str "before insert") (.raw e))
  | none =>
    match insertRes with
    | .error e => if isConflictError e driver then .error .conflict else .error e
    | .ok lastID =>
      match afterHook with
      | some e => .error (.wrapped (str "after insert") (.raw e))
      | none => .ok lastID

/-- Calls `Load` issues against its collaborators. -/
inductive LoadCall where
  | cacheGet
  | dbQuery
  | cachePut
  deriving DecidableEq, Repr

/-- `Load` (entity.go): for a cacheable entity first try `loadCache`
(whose outcome is an error or a loaded flag); a hit returns at once.
Otherwise `doLoad` queries the DB, and on success a cacheable entity is
written back through `SaveCache`. -/
def Load (cacheable : Bool) (cacheRes : Except Str Bool) (q : QueryOutcome)
    (saveRes : Option Str) : Except GoErr Unit × List LoadCall :=
  if cacheable then
    match cacheRes with
    | .error e => (.error (.wrapped (str "load from cache") (.raw e)), [.cacheGet])
    | .ok true => (.ok (), [.cacheGet])
    | .ok false =>
      match runReturningQuery q with
      | .error e => (.error e, [.cacheGet, .dbQuery])
      | .ok _ =>
        match saveRes with
        | some e => (.error (.wrapped (str "save cache") (.raw e)), [.cacheGet, .dbQuery, .cachePut])
        | none => (.ok (), [.cacheGet, .dbQuery, .cachePut])
  else
    match runReturningQuery q with
    | .error e => (.error e, [.dbQuery])
    | .ok _ => (.ok (), [.dbQuery])

/-- The `Event` hook constants of entity.go.  The enumeration carries
insert, update and delete events only — it has no upsert event. -/
inductive Event where
  | unknown
  | beforeInsert
  | afterInsert
  | beforeUpdate
  | afterUpdate
  | beforeDelete
  | afterDelete
  deriving DecidableEq, Repr

/-- Observable steps of the `Upsert` orchestration: a hook dispatch (for
the given event), a DB call, or the cache invalidation. -/
inductive UpsertEv where
  | hook (ev : Event)
  | db (e : DbEffect)
  | cacheDelete
  deriving DecidableEq, Repr

/-- The after-hook tail of `Upsert`: after-insert hook then after-update
hook, either failure wrapped as an `after upsert` error. -/
def upsertAfterHooks (a1 a2 : Option Str) (trace : List UpsertEv) :
    Except GoErr Unit × List UpsertEv :=
  match a1 with
  | some e => (.error (.wrapped (str "after upsert") (.raw e)), trace ++ [.hook .afterInsert])
  | none =>
    match a2 with
    | some e =>
      (.error (.wrapped (str "after upsert") (.raw e)),
        trace ++ [.hook .afterInsert, .hook .afterUpdate])
    | none => (.ok (), trace ++ [.hook .afterInsert, .hook .afterUpdate])

/-- `Upsert` (entity.go): before-insert hook, before-update hook,
`doUpsert`, cache invalidation for cacheable entities, after-insert
hook, after-update hook; the first failure aborts the sequence. -/
def Upsert (b1 b2 : Option Str) (md : Metadata) (driver : Str)
    (ex : ExecOutcome) (q : QueryOutcome) (cacheable : Bool) (delRes : Option Str)
    (a1 a2 : Option Str) : Except GoErr Unit × List UpsertEv :=
  match b1 with
  | some e => (.error (.wrapped (str "before upsert") (.raw e)), [.hook .beforeInsert])
  | none =>
    match b2 with
    | some e =>
      (.error (.wrapped (str "before upsert") (.raw e)),
        [.hook .beforeInsert, .hook .beforeUpdate])
    | none =>
      let r := doUpsert md driver ex q
      let pre := [UpsertEv.hook .beforeInsert, UpsertEv.hook .beforeUpdate] ++ r.2.map UpsertEv.db
      match r.1 with
      | .error e => (.error e, pre)
      | .ok _ =>
        if cacheable then
          match delRes with
          | some e => (.error (.wrapped (str "delete cache") (.raw e)), pre ++ [.cacheDelete])
          | none => upsertAfterHooks a1 a2 (pre ++ [.cacheDelete])
        else
          upsertAfterHooks a1 a2 pre

end EntityGo

namespace EntityGo

/-! ## Flag derivation lemmas -/

/-- The flag-implication closure of one column: `primaryKey`,
`autoIncrement` and `returningUpdate` each force `refuseUpdate`. -/
def flagClosure (c : Column) : Prop :=
  (c.primaryKey = true → c.refuseUpdate = true) ∧
  (c.autoIncrement = true → c.refuseUpdate = true) ∧
  (c.returningUpdate = true → c.refuseUpdate = true)

theorem applyOption_flagClosure (c : Column) (k : Str) (h : flagClosure c) :
    flagClosure (applyOption c k) := by
  unfold flagClosure applyOption at *
  split_ifs <;> simp_all

theorem foldl_applyOption_flagClosure (keys : List Str) (c : Column) (h : flagClosure c) :
    flagClosure (keys.foldl applyOption c) := by
  induction keys generalizing c with
  | nil => exact h
  | cons k ks ih => exact ih _ (applyOption_flagClosure c k h)

theorem mkColumn_flagClosure (f : FieldSpec) : flagClosure (mkColumn f) := by
  unfold mkColumn
  exact foldl_applyOption_flagClosure _ _ (by unfold flagClosure; simp)

/-- `applyOption` never clears a flag that is already set. -/
theorem applyOption_mono (c : Column) (k : Str) :
    (c.returningInsert = true → (applyOption c k).returningInsert = true) ∧
    (c.returningUpdate = true → (applyOption c k).returningUpdate = true) ∧
    (c.refuseUpdate = true → (applyOption c k).refuseUpdate = true) := by
  unfold applyOption
  split_ifs <;> simp_all

theorem foldl_applyOption_mono (keys : List Str) (c : Column) :
    (c.returningInsert = true → (keys.foldl applyOption c).returningInsert = true) ∧
    (c.returningUpdate = true → (keys.foldl applyOption c).returningUpdate = true) ∧
    (c.refuseUpdate = true → (keys.foldl applyOption c).refuseUpdate = true) := by
  induction keys generalizing c with
  | nil => simp
  | cons k ks ih =>
    refine ⟨fun h => ?_, fun h => ?_, fun h => ?_⟩ <;>
      simp only [List.foldl_cons]
    · exact (ih (applyOption c k)).1 ((applyOption_mono c k).1 h)
    · exact (ih (applyOption c k)).2.1 ((applyOption_mono c k).2.1 h)
    · exact (ih (applyOption c k)).2.2 ((applyOption_mono c k).2.2 h)

/-- Interpreting the `returning` token sets `returningInsert`,
`returningUpdate` and `refuseUpdate` at once. -/
theorem applyOption_returning (c : Column) :
    (applyOption c (str "returning")).returningInsert = true ∧
    (applyOption c (str "returning")).returningUpdate = true ∧
    (applyOption c (str "returning")).refuseUpdate = true := by
  have h1 : ¬(str "returning" = str "primaryKey" ∨ str "returning" = str "primary_key") := by
    decide
  have h2 : ¬(str "returning" = str "refuseUpdate" ∨ str "returning" = str "refuse_update") := by
    decide
  unfold applyOption
  rw [if_neg h1, if_neg h2, if_pos rfl]
  simp

theorem mkColumn_returning (f : FieldSpec) (h : str "returning" ∈ f.options) :
    (mkColumn f).returningInsert = true ∧
    (mkColumn f).returningUpdate = true ∧
    (mkColumn f).refuseUpdate = true := by
  unfold mkColumn
  obtain ⟨l₁, l₂, heq⟩ := List.append_of_mem h
  rw [heq, List.foldl_append, List.foldl_cons]
  set c := l₁.foldl applyOption { structField := f.fieldName, dbField := f.name }
  refine ⟨?_, ?_, ?_⟩
  · exact (foldl_applyOption_mono l₂ _).1 (applyOption_returning c).1
  · exact (foldl_applyOption_mono l₂ _).2.1 (applyOption_returning c).2.1
  · exact (foldl_applyOption_mono l₂ _).2.2 (applyOption_returning c).2.2

/-- C5: for every mapped type (any list of fields with any annotation
tokens), every resolved column satisfies `primaryKey ⇒ refuseUpdate`,
`autoIncrement ⇒ refuseUpdate` and `returningUpdate ⇒ refuseUpdate`; and
a field carrying the `returning` shorthand token resolves with
`returningInsert`, `returningUpdate` and `refuseUpdate` all set. -/
theorem c5_flag_implication_closure (fields : List FieldSpec) :
    (∀ c ∈ getColumns fields,
      (c.primaryKey = true → c.refuseUpdate = true) ∧
      (c.autoIncrement = true → c.refuseUpdate = true) ∧
      (c.returningUpdate = true → c.refuseUpdate = true)) ∧
    (∀ f ∈ fields, str "returning" ∈ f.options →
      (mkColumn f).returningInsert = true ∧
      (mkColumn f).returningUpdate = true ∧
      (mkColumn f).refuseUpdate = true) := by
  constructor
  · intro c hc
    obtain ⟨f, _, rfl⟩ := List.mem_map.mp hc
    exact mkColumn_flagClosure f
  · intro f _ hret
    exact mkColumn_returning f hret

/-- Witness for C5 at a concrete field list: a `returning`-tagged field
resolves with all three flags, and the implications hold for a
`primaryKey, autoIncrement` field. -/
theorem c5_flag_implication_closure_witness :
    (mkColumn ⟨str "Version", str "version", [str "returning"]⟩).returningInsert = true ∧
    (mkColumn ⟨str "Version", str "version", [str "returning"]⟩).returningUpdate = true ∧
    (mkColumn ⟨str "Version", str "version", [str "returning"]⟩).refuseUpdate = true :=
  (c5_flag_implication_closure [⟨str "Version", str "version", [str "returning"]⟩]).2
    _ (by simp) (by decide)

end EntityGo

namespace EntityGo

/-! ## Concrete fixtures shared by witnesses and counterexamples -/

/-- An auto-increment primary-key column `id`. -/
def colIdAuto : Column :=
  { structField := str "ID", dbField := str "id"
    primaryKey := true, autoIncrement := true, refuseUpdate := true }

/-- A plain (non-auto-increment) primary-key column `id`. -/
def colIdPlain : Column :=
  { structField := str "ID", dbField := str "id"
    primaryKey := true, refuseUpdate := true }

/-- An updatable plain column `name`. -/
def colName : Column := { structField := str "Name", dbField := str "name" }

/-- A `returning`-tagged column `version`. -/
def colVersion : Column :=
  { structField := str "Version", dbField := str "version"
    refuseUpdate := true, returningInsert := true, returningUpdate := true }

/-- Metadata of a table `t` whose primary key `id` is auto-increment, with
one further plain column `name` and no returning columns. -/
def mdAutoPk : Metadata :=
  { tableName := str "t", columns := [colIdAuto, colName]
    primaryKeys := [colIdAuto]
    hasReturningInsert := false, hasReturningUpdate := false }

/-- Metadata of a table `t` with plain primary key `id` and column `name`,
no returning columns. -/
def mdPlainPk : Metadata :=
  { tableName := str "t", columns := [colIdPlain, colName]
    primaryKeys := [colIdPlain]
    hasReturningInsert := false, hasReturningUpdate := false }

/-! ## C3: Upsert rejects auto-increment primary keys before any SQL -/

/-- C3: whenever the metadata holds an auto-increment primary-key column,
`doUpsert` returns an error with an empty effect trace — no UPSERT
statement has been generated and the DB has not been touched. -/
theorem c3_upsert_rejects_autoincrement_pk (md : Metadata) (driver : Str)
    (ex : ExecOutcome) (q : QueryOutcome)
    (h : ∃ c ∈ md.primaryKeys, c.autoIncrement = true) :
    (∃ e, (doUpsert md driver ex q).1 = .error e) ∧
    (doUpsert md driver ex q).2 = [] := by
  obtain ⟨c, hc, hauto⟩ := h
  unfold doUpsert
  cases hfind : md.primaryKeys.find? (·.autoIncrement) with
  | none =>
    exfalso
    have := List.find?_eq_none.mp hfind c hc
    simp [hauto] at this
  | some col => exact ⟨⟨_, rfl⟩, rfl⟩

/-- Witness for C3: the concrete auto-increment-keyed metadata makes
`doUpsert` fail with no DB effect. -/
theorem c3_upsert_rejects_autoincrement_pk_witness :
    (∃ e, (doUpsert mdAutoPk driverPostgres (.ok (.ok 1)) .noRows).1 = .error e) ∧
    (doUpsert mdAutoPk driverPostgres (.ok (.ok 1)) .noRows).2 = [] :=
  c3_upsert_rejects_autoincrement_pk mdAutoPk driverPostgres (.ok (.ok 1)) .noRows
    ⟨colIdAuto, by simp [mdAutoPk], by decide⟩

/-! ## C9: a cache hit short-circuits Load away from the DB -/

/-- C9: when `loadCache` reports a hit for a cacheable entity, `Load`
succeeds and its call trace contains no DB query — the DB collaborator
receives zero calls. -/
theorem c9_cache_hit_short_circuit (q : QueryOutcome) (saveRes : Option Str) :
    (Load true (.ok true) q saveRes).1 = .ok () ∧
    LoadCall.dbQuery ∉ (Load true (.ok true) q saveRes).2 ∧
    (Load true (.ok true) q saveRes).2 = [LoadCall.cacheGet] := by
  refine ⟨rfl, ?_, rfl⟩
  simp [Load]

end EntityGo

namespace EntityGo

/-! ## C4: conflict classification -/

/-- The Postgres unique-violation message fragment. -/
def pgConflictText : Str := str "duplicate key value violates unique constraint"

/-- The MySQL unique-violation message fragment. -/
def mysqlConflictText : Str := str "Duplicate entry"

/-- C4 counterexample: an error message that contains the Postgres
unique-violation substring can still classify as a conflict under the
mysql driver — it suffices that it also contains mysql's own
`Duplicate entry` pattern.  The claim's mysql half (`isConflictError`
returns false for every such message) is therefore false. -/
theorem c4_counterexample_mysql_match :
    containsStr (errMessage (.raw (str "Duplicate entry: duplicate key value violates unique constraint")))
      pgConflictText = true ∧
    isConflictError (.raw (str "Duplicate entry: duplicate key value violates unique constraint"))
      driverMysql = true := by
  constructor
  · decide
  · decide

/-- C4 (amended): for every error whose message contains the Postgres
unique-violation substring, the postgres driver classifies it as a
conflict and `Insert` reports `ErrConflict` instead of the raw error;
under the mysql driver, provided the message does not also contain
mysql's own `Duplicate entry` pattern, `isConflictError` returns false
and `Insert` propagates the raw error. -/
theorem c4_conflict_classification (e : GoErr) (afterHook : Option Str)
    (hpg : containsStr (errMessage e) pgConflictText = true)
    (hmy : containsStr (errMessage e) mysqlConflictText = false) :
    isConflictError e driverPostgres = true ∧
    Insert none afterHook (.error e) driverPostgres = .error .conflict ∧
    isConflictError e driverMysql = false ∧
    Insert none afterHook (.error e) driverMysql = .error e := by
  have h1 : isConflictError e driverPostgres = true := by
    unfold isConflictError
    rw [if_pos rfl]
    exact hpg
  have h2 : isConflictError e driverMysql = false := by
    unfold isConflictError
    rw [if_neg (by decide), if_pos rfl]
    exact hmy
  refine ⟨h1, ?_, h2, ?_⟩
  · unfold Insert
    simp [h1]
  · unfold Insert
    simp [h2]

/-- Witness for C4 (amended) at a concrete Postgres-style driver
message. -/
theorem c4_conflict_classification_witness :
    isConflictError (.raw (str "ERROR: duplicate key value violates unique constraint toys_pkey"))
      driverPostgres = true ∧
    Insert none none
      (.error (.raw (str "ERROR: duplicate key value violates unique constraint toys_pkey")))
      driverPostgres = .error .conflict ∧
    isConflictError (.raw (str "ERROR: duplicate key value violates unique constraint toys_pkey"))
      driverMysql = false ∧
    Insert none none
      (.error (.raw (str "ERROR: duplicate key value violates unique constraint toys_pkey")))
      driverMysql =
      .error (.raw (str "ERROR: duplicate key value violates unique constraint toys_pkey")) :=
  c4_conflict_classification
    (.raw (str "ERROR: duplicate key value violates unique constraint toys_pkey")) none
    (by decide) (by decide)

end EntityGo

namespace EntityGo

/-! ## C1: affected-row enforcement on UPDATE -/

/-- Unpacking a successful `NewMetadata` run: every derived field is the
stated function of the inputs. -/
theorem NewMetadata_ok (tableName : Str) (columns : List Column) (md : Metadata)
    (h : NewMetadata tableName columns = .ok md) :
    md.tableName = tableName ∧ md.columns = columns ∧
    md.primaryKeys = columns.filter (·.primaryKey) ∧
    md.hasReturningInsert = columns.any (·.returningInsert) ∧
    md.hasReturningUpdate = columns.any (·.returningUpdate) := by
  unfold NewMetadata at h
  split at h
  · exact absurd h (by simp)
  · split at h
    · exact absurd h (by simp)
    · injection h with h
      subst h
      simp

/-- C1 counterexample: for the concrete no-returning-column metadata,
a successful exec whose `RowsAffected` is zero makes `doUpdate` — the
executor behind `Update` — return success, not `sql.ErrNoRows`. -/
theorem c1_counterexample_zero_rows_ok :
    doUpdate mdPlainPk (.ok (.ok 0)) .noRows = .ok () := rfl

/-- C1 (amended): for metadata without `returningUpdate` columns,
`doUpdate` (the path behind `Update`) returns exactly the exec error and
ignores the affected-row count — it succeeds even on zero affected rows;
the `rowsAffected >= 1` enforcement (zero ⇒ `sql.ErrNoRows`) lives only
in the prepared-statement variant `PrepareUpdateStatement.execContext`. -/
theorem c1_update_rows_affected (tableName : Str) (columns : List Column)
    (md : Metadata) (q : QueryOutcome) (n : Nat)
    (hmd : NewMetadata tableName columns = .ok md)
    (hnoret : ∀ c ∈ columns, c.returningUpdate = false) :
    (∀ rows : Except Str Nat, doUpdate md (.ok rows) q = .ok ()) ∧
    (∀ e, doUpdate md (.fail e) q = .error (.raw e)) ∧
    pusExecContext md (.ok (.ok 0)) q = .error .errNoRows ∧
    (0 < n → pusExecContext md (.ok (.ok n)) q = .ok ()) := by
  have hflag : md.hasReturningUpdate = false := by
    have h := (NewMetadata_ok tableName columns md hmd).2.2.2.2
    rw [h]
    simp only [List.any_eq_false]
    intro c hc
    simp [hnoret c hc]
  refine ⟨?_, ?_, ?_, ?_⟩
  · intro rows
    unfold doUpdate
    rw [hflag]
    rfl
  · intro e
    unfold doUpdate
    rw [hflag]
    rfl
  · unfold pusExecContext
    rw [hflag]
    rfl
  · intro hn
    unfold pusExecContext
    rw [hflag]
    simp [Nat.pos_iff_ne_zero.mp hn]

/-- Witness for C1 (amended) at the concrete metadata of table `t`. -/
theorem c1_update_rows_affected_witness :
    doUpdate mdPlainPk (.ok (.ok 0)) .noRows = .ok () ∧
    pusExecContext mdPlainPk (.ok (.ok 0)) .noRows = .error .errNoRows ∧
    pusExecContext mdPlainPk (.ok (.ok 3)) .noRows = .ok () := by
  have h := c1_update_rows_affected (str "t") [colIdPlain, colName] mdPlainPk .noRows 3
    rfl (by decide)
  exact ⟨h.1 (.ok 0), h.2.2.1, h.2.2.2 (by decide)⟩

end EntityGo

namespace EntityGo

/-! ## C8: INSERT statement with RETURNING -/

/-- The `newInsertStatement` loop is the filter/map it looks like: the
column and placeholder lists collect the non-returning non-auto-increment
columns in order, the RETURNING list collects the `returningInsert`
columns in order. -/
theorem foldl_insertStep (driver : Str) (cols : List Column) (a : InsAcc) :
    cols.foldl (insertStep driver) a =
      { columns := a.columns ++
          (cols.filter (fun c => !c.returningInsert && !c.autoIncrement)).map
            (fun c => quoteColumn c.dbField driver)
        returnings := a.returnings ++
          (cols.filter (·.returningInsert)).map (fun c => quoteColumn c.dbField driver)
        placeholder := a.placeholder ++
          (cols.filter (fun c => !c.returningInsert && !c.autoIncrement)).map
            (fun c => ':' :: c.dbField) } := by
  induction cols generalizing a with
  | nil => simp
  | cons c cs ih =>
    rw [List.foldl_cons, ih]
    unfold insertStep
    by_cases h1 : c.returningInsert <;> by_cases h2 : c.autoIncrement <;>
      simp [h1, h2]

/-- The concrete C8 scenario's fields: auto-increment primary key `id`,
plain `name`, `returning`-tagged `version`. -/
def c8Fields : List FieldSpec :=
  [⟨str "ID", str "id", [str "primaryKey", str "autoIncrement"]⟩,
   ⟨str "Name", str "name", []⟩,
   ⟨str "Version", str "version", [str "returning"]⟩]

/-- The metadata the resolution pipeline produces for `c8Fields` over
table `t`. -/
def mdC8 : Metadata :=
  { tableName := str "t"
    columns := getColumns c8Fields
    primaryKeys := [mkColumn ⟨str "ID", str "id", [str "primaryKey", str "autoIncrement"]⟩]
    hasReturningInsert := true
    hasReturningUpdate := true }

/-- C8: whenever some column is flagged `returningInsert`, the generated
INSERT statement (any dialect) lists exactly the non-auto-increment
non-returning columns and their placeholders, and appends a RETURNING
clause listing exactly the `returningInsert` columns; and the concrete
id/name/version type over table `t` under postgres resolves and yields
`INSERT INTO "t" ("name") VALUES (:name) RETURNING "version"`. -/
theorem c8_insert_returning_statement :
    (∀ (md : Metadata) (driver : Str),
      md.columns.any (·.returningInsert) = true →
      newInsertStatement md driver =
        str "INSERT INTO " ++ quoteIdentifier md.tableName driver ++
        str " (" ++
        joinStr (str ", ")
          ((md.columns.filter (fun c => !c.returningInsert && !c.autoIncrement)).map
            (fun c => quoteColumn c.dbField driver)) ++
        str ") VALUES (" ++
        joinStr (str ", ")
          ((md.columns.filter (fun c => !c.returningInsert && !c.autoIncrement)).map
            (fun c => ':' :: c.dbField)) ++
        str ") RETURNING " ++
        joinStr (str ", ")
          ((md.columns.filter (·.returningInsert)).map
            (fun c => quoteColumn c.dbField driver))) ∧
    NewMetadata (str "t") (getColumns c8Fields) = .ok mdC8 ∧
    newInsertStatement mdC8 driverPostgres =
      str "INSERT INTO \"t\" (\"name\") VALUES (:name) RETURNING \"version\"" := by
  refine ⟨?_, rfl, rfl⟩
  intro md driver hret
  unfold newInsertStatement
  rw [foldl_insertStep]
  have hne : (md.columns.filter (·.returningInsert)).map
      (fun c => quoteColumn c.dbField driver) ≠ [] := by
    simp only [ne_eq, List.map_eq_nil_iff, List.filter_eq_nil_iff]
    intro hall
    obtain ⟨c, hc, hcc⟩ := List.any_eq_true.mp hret
    exact absurd (by simpa using hcc) (by simpa using hall c hc)
  rw [if_pos (by simpa [List.length_pos] using hne)]
  simp only [List.nil_append, List.append_assoc]
  rfl

/-- Witness for C8 at the concrete metadata under mysql, showing the
dialect-independent RETURNING clause. -/
theorem c8_insert_returning_statement_witness :
    newInsertStatement mdC8 driverMysql =
      str "INSERT INTO `t` (`name`) VALUES (:name) RETURNING `version`" := by
  have h := c8_insert_returning_statement.1 mdC8 driverMysql (by decide)
  rw [h]
  rfl

end EntityGo

namespace EntityGo

/-! ## C2: UPSERT statement shape -/

/-- The `newUpsertStatement` loop is the filter/map it looks like: the
insert lists collect non-auto-increment non-`returningInsert` columns,
the SET list collects non-primary-key non-`refuseUpdate`
non-`returningUpdate` columns, the RETURNING list collects columns with
either returning flag — all in `columns` order. -/
theorem foldl_upsertStep (driver : Str) (cols : List Column) (a : UpsAcc) :
    cols.foldl (upsertStep driver) a =
      { insertColumns := a.insertColumns ++
          (cols.filter (fun v => !v.autoIncrement && !v.returningInsert)).map
            (fun v => quoteColumn v.dbField driver)
        insertPlaceholders := a.insertPlaceholders ++
          (cols.filter (fun v => !v.autoIncrement && !v.returningInsert)).map
            (fun v => ':' :: v.dbField)
        updateStmt := a.updateStmt ++
          (cols.filter (fun v => !v.primaryKey && !v.refuseUpdate && !v.returningUpdate)).map
            (fun v => quoteColumn v.dbField driver ++ str " = " ++ (':' :: v.dbField))
        returningColumns := a.returningColumns ++
          (cols.filter (fun v => v.returningInsert || v.returningUpdate)).map
            (fun v => quoteColumn v.dbField driver) } := by
  induction cols generalizing a with
  | nil => simp
  | cons c cs ih =>
    rw [List.foldl_cons, ih]
    unfold upsertStep
    by_cases h1 : (!c.autoIncrement && !c.returningInsert) = true <;>
      by_cases h2 : (!c.primaryKey && !c.refuseUpdate && !c.returningUpdate) = true <;>
      by_cases h3 : (c.returningInsert || c.returningUpdate) = true <;>
      simp [h1, h2, h3]

/-- C2 counterexample metadata: table `t`, auto-increment primary key
`id`, plain column `name`, no returning columns. -/
theorem c2_counterexample_mysql_no_target :
    mdAutoPk.primaryKeys = [colIdAuto] ∧
    colIdAuto.dbField = str "id" ∧
    newUpsertStatement mdAutoPk driverMysql =
      str "INSERT INTO `t` (`name`) VALUES (:name) ON CONFLICT KEY UPDATE `name` = :name" ∧
    containsStr (newUpsertStatement mdAutoPk driverMysql) (str "id") = false := by
  refine ⟨rfl, rfl, rfl, ?_⟩
  decide

/-- C2 (amended): for every metadata and driver, the UPSERT statement's
insert column/value lists hold exactly the non-auto-increment
non-`returningInsert` columns, its SET list exactly the non-primary-key
non-`refuseUpdate` non-`returningUpdate` columns, and a RETURNING clause
listing exactly the columns with a returning flag is appended when one
exists; the conflict clause targets exactly the primary-key columns for
every non-mysql driver, while the mysql branch emits
`ON CONFLICT KEY UPDATE` with no conflict-target list. -/
theorem c2_upsert_statement_shape (md : Metadata) (driver : Str) :
    newUpsertStatement md driver =
      str "INSERT INTO " ++ quoteIdentifier md.tableName driver ++
      str " (" ++
      joinStr (str ", ")
        ((md.columns.filter (fun v => !v.autoIncrement && !v.returningInsert)).map
          (fun v => quoteColumn v.dbField driver)) ++
      str ") VALUES (" ++
      joinStr (str ", ")
        ((md.columns.filter (fun v => !v.autoIncrement && !v.returningInsert)).map
          (fun v => ':' :: v.dbField)) ++
      str ")" ++
      (if driver = driverMysql then
        str " ON CONFLICT KEY UPDATE " ++
        joinStr (str ", ")
          ((md.columns.filter (fun v => !v.primaryKey && !v.refuseUpdate && !v.returningUpdate)).map
            (fun v => quoteColumn v.dbField driver ++ str " = " ++ (':' :: v.dbField)))
      else
        str " ON CONFLICT (" ++
        joinStr (str ", ") (md.primaryKeys.map (fun v => quoteColumn v.dbField driver)) ++
        str ") DO UPDATE SET " ++
        joinStr (str ", ")
          ((md.columns.filter (fun v => !v.primaryKey && !v.refuseUpdate && !v.returningUpdate)).map
            (fun v => quoteColumn v.dbField driver ++ str " = " ++ (':' :: v.dbField)))) ++
      (if (md.columns.filter (fun v => v.returningInsert || v.returningUpdate)) = [] then
        []
      else
        str " RETURNING " ++
        joinStr (str ", ")
          ((md.columns.filter (fun v => v.returningInsert || v.returningUpdate)).map
            (fun v => quoteColumn v.dbField driver))) := by
  unfold newUpsertStatement
  rw [foldl_upsertStep]
  by_cases hm : driver = driverMysql <;>
    by_cases hr : (md.columns.filter (fun v => v.returningInsert || v.returningUpdate)) = [] <;>
    simp [hm, hr, List.append_assoc, List.length_pos, List.map_eq_nil_iff]

end EntityGo

namespace EntityGo

/-! ## C7: idempotence of identifier quoting -/

theorem splitOnChar_ne_nil (c : Char) (s : Str) : splitOnChar c s ≠ [] := by
  induction s with
  | nil => simp [splitOnChar]
  | cons a s ih =>
    unfold splitOnChar
    cases h : splitOnChar c s with
    | nil => simp
    | cons t ts =>
      dsimp only
      split <;> simp

/-- Rejoining the split segments restores the string. -/
theorem joinStr_splitOnChar (c : Char) (s : Str) :
    joinStr [c] (splitOnChar c s) = s := by
  induction s with
  | nil => rfl
  | cons a s ih =>
    unfold splitOnChar
    cases h : splitOnChar c s with
    | nil => exact absurd h (splitOnChar_ne_nil c s)
    | cons t ts =>
      rw [h] at ih
      dsimp only
      by_cases hac : a = c
      · subst hac
        simp only [if_pos rfl, joinStr]
        cases ts <;> simp_all [joinStr]
      · rw [if_neg hac]
        cases ts <;> simp_all [joinStr]

/-- Every character of every split segment comes from the split
string. -/
theorem mem_of_mem_splitOnChar (sep x : Char) (s : Str) (t : Str)
    (ht : t ∈ splitOnChar sep s) (hx : x ∈ t) : x ∈ s := by
  induction s generalizing t with
  | nil =>
    simp [splitOnChar] at ht
    subst ht
    exact absurd hx (List.not_mem_nil x)
  | cons a s ih =>
    unfold splitOnChar at ht
    cases h : splitOnChar sep s with
    | nil => exact absurd h (splitOnChar_ne_nil sep s)
    | cons u us =>
      rw [h] at ht
      dsimp only at ht
      split at ht
      · rcases List.mem_cons.mp ht with rfl | htail
        · exact absurd hx (List.not_mem_nil x)
        · exact List.mem_cons_of_mem a (ih t (h ▸ htail) hx)
      · rcases List.mem_cons.mp ht with rfl | htail
        · rcases List.mem_cons.mp hx with rfl | hxu
          · exact List.mem_cons_self x s
          · exact List.mem_cons_of_mem a (ih u (h ▸ List.mem_cons_self u us) hxu)
        · exact List.mem_cons_of_mem a (ih t (h ▸ List.mem_cons_of_mem u htail) hx)

theorem removeAll_not_mem (c : Char) (s : Str) : c ∉ removeAll c s := by
  simp [removeAll, List.mem_filter]

theorem removeAll_eq_self (c : Char) (s : Str) (h : c ∉ s) : removeAll c s = s :=
  List.filter_eq_self.mpr fun a ha => by
    simp only [ne_eq, decide_eq_true_eq]
    exact fun hac => h (hac ▸ ha)

/-- Deleting a character other than the separator commutes with
joining. -/
theorem removeAll_joinStr (sym c : Char) (h : sym ≠ c) (l : List Str) :
    removeAll sym (joinStr [c] l) = joinStr [c] (l.map (removeAll sym)) := by
  induction l with
  | nil => rfl
  | cons x xs ih =>
    cases xs with
    | nil => rfl
    | cons y ys =>
      simp only [joinStr, List.map_cons] at ih ⊢
      simp only [removeAll, List.filter_append] at ih ⊢
      rw [show List.filter (fun a => decide (a ≠ sym)) [c] = [c] by
        simp [List.filter, (Ne.symm h)]]
      rw [ih]

/-- Stripping the quote character undoes segment quoting. -/
theorem removeAll_quoteSegment (sym : Char) (s : Str) :
    removeAll sym (quoteSegment sym s) = removeAll sym s := by
  unfold quoteSegment
  split
  · rfl
  · simp [removeAll, List.filter_append, List.filter_cons]

/-- The quote symbol is never the dot separator. -/
theorem quoteSymbol_ne_dot (driver : Str) : quoteSymbol driver ≠ '.' := by
  unfold quoteSymbol
  split <;> decide

/-- Stripping the dialect's quote character from a quoted identifier
yields the stripped original: quoting adds nothing but quote characters. -/
theorem removeAll_quoteIdentifier (name driver : Str) :
    removeAll (quoteSymbol driver) (quoteIdentifier name driver) =
      removeAll (quoteSymbol driver) name := by
  unfold quoteIdentifier
  rw [removeAll_joinStr _ _ (quoteSymbol_ne_dot driver), List.map_map]
  have hseg : ∀ t ∈ splitOnChar '.' (removeAll (quoteSymbol driver) name),
      (removeAll (quoteSymbol driver) ∘ quoteSegment (quoteSymbol driver)) t = t := by
    intro t ht
    have hnot : quoteSymbol driver ∉ t := fun hx =>
      removeAll_not_mem (quoteSymbol driver) name (mem_of_mem_splitOnChar '.' _ _ t ht hx)
    simp only [Function.comp_apply, removeAll_quoteSegment]
    exact removeAll_eq_self _ t hnot
  rw [List.map_congr_left hseg, List.map_id', joinStr_splitOnChar]

/-- C7: `quoteIdentifier` is idempotent for every name and every driver;
the quote character is the backtick exactly for mysql and the double
quote otherwise; and the function is the strip/split/wrap/rejoin
composite, quoting every segment except a literal `*`. -/
theorem c7_quoteIdentifier_idempotent (name driver : Str) :
    quoteIdentifier (quoteIdentifier name driver) driver = quoteIdentifier name driver ∧
    (driver = driverMysql → quoteSymbol driver = '`') ∧
    (driver ≠ driverMysql → quoteSymbol driver = '"') ∧
    quoteIdentifier name driver =
      joinStr ['.'] ((splitOnChar '.' (removeAll (quoteSymbol driver) name)).map
        (quoteSegment (quoteSymbol driver))) := by
  refine ⟨?_, ?_, ?_, rfl⟩
  · show joinStr ['.']
        ((splitOnChar '.' (removeAll (quoteSymbol driver) (quoteIdentifier name driver))).map
          (quoteSegment (quoteSymbol driver))) =
      quoteIdentifier name driver
    rw [removeAll_quoteIdentifier]
    rfl
  · intro h
    simp [quoteSymbol, h]
  · intro h
    simp [quoteSymbol, h]

/-- Witness for C7 at a concrete dotted, partially quoted name under the
postgres dialect. -/
theorem c7_quoteIdentifier_idempotent_witness :
    quoteIdentifier (quoteIdentifier (str "\"foo\".bar.*") driverPostgres) driverPostgres =
      quoteIdentifier (str "\"foo\".bar.*") driverPostgres ∧
    quoteIdentifier (str "\"foo\".bar.*") driverPostgres = str "\"foo\".\"bar\".*" := by
  constructor
  · exact (c7_quoteIdentifier_idempotent (str "\"foo\".bar.*") driverPostgres).1
  · rfl

end EntityGo

namespace EntityGo

/-! ## C6: embedding precedence in the field walk -/

/-- One node of the `reflectx` field tree walked by `getFields`
(entity.go): its field spec, whether the field is an embedded struct,
and its child fields. -/
inductive FieldNode where
  | node (spec : FieldSpec) (embedded : Bool) (children : List FieldNode)
  deriving Repr

def FieldNode.spec : FieldNode → FieldSpec
  | .node f _ _ => f

def FieldNode.embedded : FieldNode → Bool
  | .node _ e _ => e

def FieldNode.children : FieldNode → List FieldNode
  | .node _ _ c => c

/-- A node's db name. -/
def FieldNode.name (n : FieldNode) : Str := n.spec.name

mutual
/-- The inner `get` closure of `getFields`: list the non-embedded
children in order, then the recursively flattened embedded children. -/
def collect : FieldNode → List FieldNode
  | .node _ _ children => children.filter (fun v => !v.embedded) ++ collectEmbedded children

/-- Flatten the embedded children of a node, in order. -/
def collectEmbedded : List FieldNode → List FieldNode
  | [] => []
  | v :: vs => (if v.embedded then collect v else []) ++ collectEmbedded vs
end

/-- The `done`-map deduplication loop of `getFields`: keep the first
field of each db name, drop later duplicates. -/
def dedupeByName (seen : List Str) : List FieldNode → List FieldNode
  | [] => []
  | f :: fs =>
    if f.name ∈ seen then dedupeByName seen fs
    else f :: dedupeByName (f.name :: seen) fs

/-- `getFields` (entity.go): flatten the type's field tree, then keep
only the first occurrence of every db name. -/
def getFields (root : FieldNode) : List FieldNode :=
  dedupeByName [] (collect root)

/-- After deduplication, the fields with a given name are the first
pre-deduplication occurrence (none if the name was already seen). -/
theorem dedupeByName_filter (n : Str) (l : List FieldNode) :
    ∀ seen : List Str,
      (n ∈ seen → (dedupeByName seen l).filter (fun f => f.name = n) = []) ∧
      (n ∉ seen →
        (dedupeByName seen l).filter (fun f => f.name = n) =
          (l.filter (fun f => f.name = n)).take 1) := by
  induction l with
  | nil => intro seen; simp [dedupeByName]
  | cons f fs ih =>
    intro seen
    constructor
    · intro hn
      unfold dedupeByName
      by_cases hf : f.name ∈ seen
      · rw [if_pos hf]
        exact (ih seen).1 hn
      · rw [if_neg hf]
        have hfn : ¬(f.name = n) := fun h => hf (h ▸ hn)
        rw [List.filter_cons_of_neg (by simpa using hfn)]
        exact (ih (f.name :: seen)).1 (List.mem_cons_of_mem _ hn)
    · intro hn
      unfold dedupeByName
      by_cases hfn : f.name = n
      · have hf : f.name ∉ seen := hfn ▸ hn
        rw [if_neg hf, List.filter_cons_of_pos (by simpa using hfn),
          List.filter_cons_of_pos (by simpa using hfn)]
        have := (ih (f.name :: seen)).1 (hfn ▸ List.mem_cons_self f.name seen)
        rw [this]
        simp
      · by_cases hf : f.name ∈ seen
        · rw [if_pos hf, List.filter_cons_of_neg (by simpa using hfn)]
          exact (ih seen).2 hn
        · rw [if_neg hf, List.filter_cons_of_neg (by simpa using hfn),
            List.filter_cons_of_neg (by simpa using hfn)]
          exact (ih (f.name :: seen)).2 (by
            intro hc
            rcases List.mem_cons.mp hc with h | h
            · exact hfn h.symm
            · exact hn h)

/-- `applyOption` never changes the db field name. -/
theorem applyOption_dbField (c : Column) (k : Str) :
    (applyOption c k).dbField = c.dbField := by
  unfold applyOption
  split_ifs <;> rfl

/-- A fold of option interpretations never changes the db field name. -/
theorem foldl_applyOption_dbField (keys : List Str) (c : Column) :
    (keys.foldl applyOption c).dbField = c.dbField := by
  induction keys generalizing c with
  | nil => rfl
  | cons k ks ih => rw [List.foldl_cons, ih, applyOption_dbField]

/-- The resolved column keeps the field's db name. -/
theorem mkColumn_dbField (f : FieldSpec) : (mkColumn f).dbField = f.name :=
  foldl_applyOption_dbField f.options _

end EntityGo

namespace EntityGo

/-- Filtering commutes with mapping, pulling the predicate through the
mapped function. -/
theorem filter_map_comm {α β : Type} (g : α → β) (p : β → Bool) (l : List α) :
    (l.map g).filter p = (l.filter (fun x => p (g x))).map g := by
  induction l with
  | nil => rfl
  | cons x xs ih => by_cases h : p (g x) <;> simp [h, ih]

/-- C6: when a type's own (outer, non-embedded) field carries db name
`n` and some embedded subtree also yields a field named `n`, the
resolved field list keeps exactly one entry named `n` — the outer field —
and the resolved column list carries exactly the outer field's column;
the embedded duplicate is gone. -/
theorem c6_embedding_precedence (root : FieldNode) (n : Str) (outer : FieldNode)
    (houter : outer ∈ root.children) (hemb : outer.embedded = false)
    (hname : outer.name = n)
    (huniq : ∀ o ∈ root.children, o.embedded = false → o.name = n → o = outer)
    (hinner : ∃ inner ∈ collectEmbedded root.children, inner.name = n) :
    (getFields root).filter (fun f => f.name = n) = [outer] ∧
    (getColumns ((getFields root).map FieldNode.spec)).filter (fun c => c.dbField = n) =
      [mkColumn outer.spec] := by
  obtain ⟨_, _, hw⟩ := hinner
  cases root with
  | node fr er children =>
    simp only [FieldNode.children] at houter huniq
    have hstep : (getFields (.node fr er children)).filter (fun f => f.name = n) =
        ((collect (.node fr er children)).filter (fun f => f.name = n)).take 1 :=
      (dedupeByName_filter n (collect (.node fr er children)) []).2 (by simp)
    have hcollect : collect (.node fr er children) =
        children.filter (fun v => !v.embedded) ++ collectEmbedded children := by
      simp [collect]
    have houterA : outer ∈ (children.filter (fun v => !v.embedded)).filter
        (fun f => f.name = n) := by
      refine List.mem_filter.mpr ⟨List.mem_filter.mpr ⟨houter, ?_⟩, ?_⟩
      · simp [hemb]
      · simp [hname]
    have hallA : ∀ z ∈ (children.filter (fun v => !v.embedded)).filter
        (fun f => f.name = n), z = outer := by
      intro z hz
      have h1 := List.mem_filter.mp hz
      have h2 := List.mem_filter.mp h1.1
      refine huniq z h2.1 ?_ (by simpa using h1.2)
      simpa using h2.2
    have hfields : (getFields (.node fr er children)).filter (fun f => f.name = n) =
        [outer] := by
      rw [hstep, hcollect, List.filter_append]
      cases hAe : (children.filter (fun v => !v.embedded)).filter (fun f => f.name = n) with
      | nil => rw [hAe] at houterA; exact absurd houterA (List.not_mem_nil _)
      | cons z zs =>
        have hz : z = outer := hallA z (hAe ▸ List.mem_cons_self z zs)
        simp [hz]
    refine ⟨hfields, ?_⟩
    unfold getColumns
    rw [List.map_map, filter_map_comm]
    have hpred : ∀ f : FieldNode,
        (fun x => decide (((mkColumn ∘ FieldNode.spec) x).dbField = n)) f =
          (fun f : FieldNode => decide (f.name = n)) f := by
      intro f
      simp [mkColumn_dbField, FieldNode.name]
    rw [List.filter_congr (fun x _ => hpred x), hfields]
    simp

/-- Witness fixture: the embedded `ExtendID` struct also declares `id`. -/
def innerIdNode : FieldNode := .node ⟨str "ID", str "id", []⟩ false []

/-- Witness fixture: the embedded node holding `innerIdNode`. -/
def extendIdNode : FieldNode := .node ⟨str "ExtendID", str "extendid", []⟩ true [innerIdNode]

/-- Witness fixture: the outer `id` field with its own flags. -/
def outerIdNode : FieldNode :=
  .node ⟨str "ID", str "id", [str "primaryKey", str "autoIncrement"]⟩ false []

/-- Witness fixture: a plain `name` field. -/
def nameFieldNode : FieldNode := .node ⟨str "Name", str "name", []⟩ false []

/-- Witness fixture: the root of the field tree. -/
def rootFieldNode : FieldNode :=
  .node ⟨str "", str "", []⟩ false [outerIdNode, nameFieldNode, extendIdNode]

/-- Witness for C6 at the concrete tree: only the outer `id` survives,
with its own flags. -/
theorem c6_embedding_precedence_witness :
    (getFields rootFieldNode).filter (fun f => f.name = str "id") = [outerIdNode] ∧
    (getColumns ((getFields rootFieldNode).map FieldNode.spec)).filter
      (fun c => c.dbField = str "id") = [mkColumn outerIdNode.spec] := by
  refine c6_embedding_precedence rootFieldNode (str "id") outerIdNode ?_ rfl rfl ?_ ?_
  · simp [rootFieldNode, FieldNode.children]
  · intro o ho h1 h2
    simp only [rootFieldNode, FieldNode.children, List.mem_cons, List.not_mem_nil,
      or_false] at ho
    rcases ho with rfl | rfl | rfl
    · rfl
    · exact absurd h2 (by decide)
    · exact absurd h1 (by decide)
  · refine ⟨innerIdNode, ?_, rfl⟩
    have : collectEmbedded rootFieldNode.children = [innerIdNode] := by
      simp [rootFieldNode, FieldNode.children, collectEmbedded, collect, outerIdNode,
        nameFieldNode, extendIdNode, innerIdNode, FieldNode.embedded]
    rw [this]
    exact List.mem_singleton.mpr rfl

end EntityGo

namespace EntityGo

/-! ## C10: Upsert hook orchestration -/

/-- Result and trace of the after-hook tail of `Upsert`. -/
theorem upsertAfterHooks_spec (a1 a2 : Option Str) (t : List UpsertEv) :
    ((a1 = none ∧ a2 = none) → (upsertAfterHooks a1 a2 t).1 = .ok ()) ∧
    (∀ e, a1 = some e →
      (upsertAfterHooks a1 a2 t).1 = .error (.wrapped (str "after upsert") (.raw e))) ∧
    (∀ e, a1 = none → a2 = some e →
      (upsertAfterHooks a1 a2 t).1 = .error (.wrapped (str "after upsert") (.raw e))) ∧
    (upsertAfterHooks a1 a2 t).2 = t ++
      (match a1 with
        | some _ => [UpsertEv.hook .afterInsert]
        | none => [UpsertEv.hook .afterInsert, UpsertEv.hook .afterUpdate]) := by
  cases a1 <;> cases a2 <;> simp [upsertAfterHooks]

end EntityGo

namespace EntityGo

/-- The hook events `Upsert` can ever dispatch are the before/after
insert and update events — there is no upsert-specific hook event. -/
theorem upsert_hook_events_family (b1 b2 a1 a2 : Option Str) (md : Metadata)
    (driver : Str) (ex : ExecOutcome) (q : QueryOutcome) (cacheable : Bool)
    (delRes : Option Str) :
    ∀ ev, UpsertEv.hook ev ∈ (Upsert b1 b2 md driver ex q cacheable delRes a1 a2).2 →
      ev = .beforeInsert ∨ ev = .beforeUpdate ∨ ev = .afterInsert ∨ ev = .afterUpdate := by
  intro ev hev
  have hpre : ∀ (e : Event) (l : List DbEffect),
      UpsertEv.hook e ∈
        ([UpsertEv.hook .beforeInsert, UpsertEv.hook .beforeUpdate] ++ l.map UpsertEv.db) →
      e = .beforeInsert ∨ e = .beforeUpdate := by
    intro e l h
    simp only [List.mem_append, List.mem_cons, List.not_mem_nil, or_false,
      List.mem_map, UpsertEv.hook.injEq] at h
    rcases h with (h | h) | ⟨x, _, hx⟩
    · exact Or.inl h
    · exact Or.inr h
    · cases hx
  have htail : ∀ t : List UpsertEv,
      (∀ e, UpsertEv.hook e ∈ t →
        e = .beforeInsert ∨ e = .beforeUpdate ∨ e = .afterInsert ∨ e = .afterUpdate) →
      UpsertEv.hook ev ∈ (upsertAfterHooks a1 a2 t).2 →
      ev = .beforeInsert ∨ ev = .beforeUpdate ∨ ev = .afterInsert ∨ ev = .afterUpdate := by
    intro t ht h
    rw [(upsertAfterHooks_spec a1 a2 t).2.2.2] at h
    rcases List.mem_append.mp h with h | h
    · exact ht ev h
    · cases a1 <;> simp_all
  unfold Upsert at hev
  cases b1 with
  | some e =>
    simp only [List.mem_singleton, UpsertEv.hook.injEq] at hev
    exact Or.inl hev
  | none =>
    cases b2 with
    | some e =>
      simp only [List.mem_cons, List.not_mem_nil, or_false, UpsertEv.hook.injEq] at hev
      rcases hev with h | h
      · exact Or.inl h
      · exact Or.inr (Or.inl h)
    | none =>
      dsimp only at hev
      cases hr : (doUpsert md driver ex q).1 with
      | error e =>
        rw [hr] at hev
        dsimp only at hev
        rcases hpre _ _ hev with h | h
        · exact Or.inl h
        · exact Or.inr (Or.inl h)
      | ok u =>
        rw [hr] at hev
        dsimp only at hev
        have hbase : ∀ extra : List UpsertEv,
            (∀ e, UpsertEv.hook e ∉ extra) →
            UpsertEv.hook ev ∈ (upsertAfterHooks a1 a2
              (([UpsertEv.hook .beforeInsert, UpsertEv.hook .beforeUpdate] ++
                (doUpsert md driver ex q).2.map UpsertEv.db) ++ extra)).2 →
            ev = .beforeInsert ∨ ev = .beforeUpdate ∨ ev = .afterInsert ∨ ev = .afterUpdate := by
          intro extra hextra h
          refine htail _ ?_ h
          intro e he
          rcases List.mem_append.mp he with h' | h'
          · rcases hpre _ _ h' with h'' | h''
            · exact Or.inl h''
            · exact Or.inr (Or.inl h'')
          · exact absurd h' (hextra e)
        by_cases hc : cacheable = true
        · rw [if_pos hc] at hev
          cases delRes with
          | some e =>
            rcases List.mem_append.mp hev with h | h
            · rcases hpre _ _ h with h' | h'
              · exact Or.inl h'
              · exact Or.inr (Or.inl h')
            · simp at h
          | none =>
            exact hbase [UpsertEv.cacheDelete] (by intro e; simp) hev
        · rw [if_neg hc] at hev
          have : (([UpsertEv.hook Event.beforeInsert, UpsertEv.hook Event.beforeUpdate] ++
              (doUpsert md driver ex q).2.map UpsertEv.db) ++ ([] : List UpsertEv)) =
              ([UpsertEv.hook Event.beforeInsert, UpsertEv.hook Event.beforeUpdate] ++
              (doUpsert md driver ex q).2.map UpsertEv.db) := by simp
          exact hbase [] (by intro e; simp) (by rw [this]; exact hev)

end EntityGo

namespace EntityGo

/-- C10 counterexample: with a cacheable entity whose cache invalidation
fails, `doUpsert` has succeeded (the row mutation happened) yet the
after-insert hook is never dispatched and `Upsert` returns the cache
error — refuting the unconditional "on successful execution the
after-insert hook then the after-update hook run". -/
theorem c10_counterexample_cache_delete_blocks_after_hooks :
    (doUpsert mdPlainPk driverPostgres (.ok (.ok 1)) .noRows).1 = .ok () ∧
    (Upsert none none mdPlainPk driverPostgres (.ok (.ok 1)) .noRows true
      (some (str "cache down")) none none).1 =
      .error (.wrapped (str "delete cache") (.raw (str "cache down"))) ∧
    UpsertEv.hook .afterInsert ∉
      (Upsert none none mdPlainPk driverPostgres (.ok (.ok 1)) .noRows true
        (some (str "cache down")) none none).2 := by
  refine ⟨rfl, rfl, ?_⟩
  decide

/-- C10 (amended): `Upsert` dispatches the before-insert hook and then
the before-update hook before the UPSERT statement executes, and either
failing aborts with an error and no DB effect; when the UPSERT has
executed successfully and — for cacheable entities — the cache
invalidation succeeded, the after-insert hook and then the after-update
hook run, either failure being reported as an error even though the DB
effects (the row mutation) are already in the trace; and every hook
event ever dispatched belongs to the insert/update families — there is
no upsert-specific hook event. -/
theorem c10_upsert_hook_orchestration (b1 b2 a1 a2 : Option Str) (md : Metadata)
    (driver : Str) (ex : ExecOutcome) (q : QueryOutcome) (cacheable : Bool)
    (delRes : Option Str) :
    (∀ e, b1 = some e →
      (Upsert b1 b2 md driver ex q cacheable delRes a1 a2).1 =
        .error (.wrapped (str "before upsert") (.raw e)) ∧
      (Upsert b1 b2 md driver ex q cacheable delRes a1 a2).2 =
        [UpsertEv.hook .beforeInsert]) ∧
    (∀ e, b1 = none → b2 = some e →
      (Upsert b1 b2 md driver ex q cacheable delRes a1 a2).1 =
        .error (.wrapped (str "before upsert") (.raw e)) ∧
      (Upsert b1 b2 md driver ex q cacheable delRes a1 a2).2 =
        [UpsertEv.hook .beforeInsert, UpsertEv.hook .beforeUpdate]) ∧
    (b1 = none → b2 = none → (doUpsert md driver ex q).1 = .ok () →
      (cacheable = true → delRes = none) →
      (Upsert b1 b2 md driver ex q cacheable delRes a1 a2).2 =
        (([UpsertEv.hook .beforeInsert, UpsertEv.hook .beforeUpdate] ++
          (doUpsert md driver ex q).2.map UpsertEv.db) ++
          (if cacheable then [UpsertEv.cacheDelete] else [])) ++
        (match a1 with
          | some _ => [UpsertEv.hook .afterInsert]
          | none => [UpsertEv.hook .afterInsert, UpsertEv.hook .afterUpdate]) ∧
      ((a1 = none ∧ a2 = none) →
        (Upsert b1 b2 md driver ex q cacheable delRes a1 a2).1 = .ok ()) ∧
      (∀ e, a1 = some e →
        (Upsert b1 b2 md driver ex q cacheable delRes a1 a2).1 =
          .error (.wrapped (str "after upsert") (.raw e))) ∧
      (∀ e, a1 = none → a2 = some e →
        (Upsert b1 b2 md driver ex q cacheable delRes a1 a2).1 =
          .error (.wrapped (str "after upsert") (.raw e)))) ∧
    (∀ ev, UpsertEv.hook ev ∈ (Upsert b1 b2 md driver ex q cacheable delRes a1 a2).2 →
      ev = .beforeInsert ∨ ev = .beforeUpdate ∨ ev = .afterInsert ∨ ev = .afterUpdate) := by
  refine ⟨?_, ?_, ?_, upsert_hook_events_family b1 b2 a1 a2 md driver ex q cacheable delRes⟩
  · intro e he
    subst he
    exact ⟨rfl, rfl⟩
  · intro e hb1 he
    subst hb1
    subst he
    exact ⟨rfl, rfl⟩
  · intro hb1 hb2 hok hcache
    subst hb1
    subst hb2
    have hU : Upsert none none md driver ex q cacheable delRes a1 a2 =
        upsertAfterHooks a1 a2
          (([UpsertEv.hook .beforeInsert, UpsertEv.hook .beforeUpdate] ++
            (doUpsert md driver ex q).2.map UpsertEv.db) ++
            (if cacheable then [UpsertEv.cacheDelete] else [])) := by
      unfold Upsert
      dsimp only
      rw [hok]
      dsimp only
      by_cases hc : cacheable = true
      · rw [if_pos hc, if_pos hc]
        rw [hcache hc]
      · rw [if_neg hc, if_neg hc]
        simp
    rw [hU]
    have hs := upsertAfterHooks_spec a1 a2
      (([UpsertEv.hook .beforeInsert, UpsertEv.hook .beforeUpdate] ++
        (doUpsert md driver ex q).2.map UpsertEv.db) ++
        (if cacheable then [UpsertEv.cacheDelete] else []))
    exact ⟨hs.2.2.2, hs.1, hs.2.1, hs.2.2.1⟩

/-- Witness for C10 (amended) on a concrete full-success run over the
plain-primary-key metadata: the trace is the before hooks, the generated
statement and exec, the cache invalidation, then the after hooks, and
the result is success. -/
theorem c10_upsert_hook_orchestration_witness :
    (Upsert none none mdPlainPk driverPostgres (.ok (.ok 1)) .noRows true none none none).2 =
      (([UpsertEv.hook .beforeInsert, UpsertEv.hook .beforeUpdate] ++
        (doUpsert mdPlainPk driverPostgres (.ok (.ok 1)) .noRows).2.map UpsertEv.db) ++
        [UpsertEv.cacheDelete]) ++
      [UpsertEv.hook .afterInsert, UpsertEv.hook .afterUpdate] ∧
    (Upsert none none mdPlainPk driverPostgres (.ok (.ok 1)) .noRows true none none none).1 =
      .ok () := by
  have h := (c10_upsert_hook_orchestration none none none none mdPlainPk driverPostgres
    (.ok (.ok 1)) .noRows true none).2.2.1 rfl rfl rfl (fun _ => rfl)
  refine ⟨?_, h.2.1 ⟨rfl, rfl⟩⟩
  have := h.1
  simpa using this

end EntityGo
